import Mathlib

/-!
Verification of the soclaw secops core: the proposal workflow
(pkg/secops/service.go, pkg/secops/types.go), the activity scheduler
(pkg/secops/service.go), and the shared template substitution
(pkg/tools/secops/sheikah_api.go and the query tool).

Strings are modelled as lists of characters where the substitution engine
needs structural recursion; elsewhere Lean String is used directly.
Go maps are modelled as association lists; an explicit list order stands
for the unspecified Go map iteration order where that order is observable.
Time instants (time.Time) are modelled as natural numbers with 0 as the
zero instant; durations (time.Duration, int64 nanoseconds) as integers
with explicit two-complement wrapping where overflow matters.
-/

namespace Soclaw

/-! Template substitution (replaceParams in sheikah_api.go and the query data tool) -/

/-- Model of Go strings.ReplaceAll for a nonempty pattern, given as head
and tail: replaces non-overlapping occurrences of the pattern, scanning
left to right. -/
def replaceAllAux (p : Char) (ps rep : List Char) : List Char → List Char
  | [] => []
  | c :: cs =>
    if (p :: ps).isPrefixOf (c :: cs) then
      rep ++ replaceAllAux p ps rep (cs.drop ps.length)
    else
      c :: replaceAllAux p ps rep cs
termination_by s => s.length
decreasing_by
  all_goals simp [List.length_drop]
  omega

/-- Model of Go strings.ReplaceAll. All call sites in the source pass a
nonempty pattern; an empty pattern is mapped to the identity here. -/
def replaceAll (pat rep s : List Char) : List Char :=
  match pat with
  | [] => s
  | p :: ps => replaceAllAux p ps rep s

/-- The double-brace-with-dot placeholder spelling of a parameter name. -/
def pat1 (k : List Char) : List Char :=
  '\x7b' :: '\x7b' :: '.' :: (k ++ ['\x7d', '\x7d'])

/-- The double-brace placeholder spelling of a parameter name. -/
def pat2 (k : List Char) : List Char :=
  '\x7b' :: '\x7b' :: (k ++ ['\x7d', '\x7d'])

/-- The dollar-prefixed placeholder spelling of a parameter name. -/
def pat3 (k : List Char) : List Char :=
  '$' :: k

/-- One iteration of the replaceParams loop body: replace all occurrences
of the three placeholder spellings of one parameter with its value. -/
def applyParam (t : List Char) (kv : List Char × List Char) : List Char :=
  replaceAll (pat3 kv.1) kv.2
    (replaceAll (pat2 kv.1) kv.2
      (replaceAll (pat1 kv.1) kv.2 t))

/-- Model of replaceParams given the parsed parameter mapping. The list
order models the unspecified Go map iteration order. -/
def replaceParams (t : List Char) (params : List (List Char × List Char)) : List Char :=
  params.foldl applyParam t

/-- Whether a pattern occurs as a contiguous substring. -/
def occurs (pat s : List Char) : Bool :=
  s.tails.any (fun suf => pat.isPrefixOf suf)

/-- A value free of every character that can take part in a placeholder
spelling; such a value contains no placeholder-shaped text. -/
def placeholderFree (v : List Char) : Prop :=
  '$' ∉ v ∧ '\x7b' ∉ v ∧ '\x7d' ∉ v

instance (v : List Char) : Decidable (placeholderFree v) := by
  unfold placeholderFree; infer_instance

/-! Lemmas about replaceAll -/

theorem occurs_cons (pat : List Char) (c : Char) (cs : List Char) :
    occurs pat (c :: cs) = (pat.isPrefixOf (c :: cs) || occurs pat cs) := by
  simp [occurs, List.tails]

theorem replaceAllAux_of_not_occurs (p : Char) (ps rep : List Char) :
    ∀ s : List Char, occurs (p :: ps) s = false → replaceAllAux p ps rep s = s
  | [], _ => by simp [replaceAllAux]
  | c :: cs, h => by
    rw [occurs_cons] at h
    simp only [Bool.or_eq_false_iff] at h
    rw [replaceAllAux]
    simp only [h.1, if_false]
    have ih := replaceAllAux_of_not_occurs p ps rep cs h.2
    simp [ih]
termination_by s => s.length

theorem replaceAll_of_not_occurs (pat rep s : List Char)
    (h : occurs pat s = false ∨ pat = []) : replaceAll pat rep s = s := by
  match pat with
  | [] => rfl
  | p :: ps =>
    rcases h with h | h
    · exact replaceAllAux_of_not_occurs p ps rep s h
    · cases h

theorem applyParam_of_not_occurs (t : List Char) (kv : List Char × List Char)
    (h1 : occurs (pat1 kv.1) t = false)
    (h2 : occurs (pat2 kv.1) t = false)
    (h3 : occurs (pat3 kv.1) t = false) :
    applyParam t kv = t := by
  unfold applyParam
  rw [replaceAll_of_not_occurs _ _ _ (Or.inl h1),
      replaceAll_of_not_occurs _ _ _ (Or.inl h2),
      replaceAll_of_not_occurs _ _ _ (Or.inl h3)]

/-! Data model (pkg/secops/types.go) -/

/-- Param from types.go: an adjustable parameter of a proposal. The Go
field Type is rendered Typ because Type is a Lean keyword. -/
structure Param where
  Key : String
  Label : String
  Typ : String
  Value : String
  Options : List String
deriving DecidableEq

/-- ProposalAction from types.go. -/
structure ProposalAction where
  Label : String
  Typ : String
  Params : List (String × String)
deriving DecidableEq

/-- Proposal from types.go. In Go Status has type ProposalStatus, a
defined string type whose zero value is the empty string; it is modelled
as String. Details has interface-typed values in Go; the claims never
inspect them, so they are modelled abstractly as strings. -/
structure Proposal where
  ID : String
  Typ : String
  Title : String
  Summary : String
  Details : List (String × String)
  Actions : List ProposalAction
  Parameters : List (String × Param)
  Status : String
  CreatedAt : Nat
  UpdatedAt : Nat
deriving DecidableEq

def ProposalStatusPending : String := "pending"

def ProposalStatusAccepted : String := "accepted"

def ProposalStatusIgnored : String := "ignored"

def ProposalStatusModified : String := "modified"

/-- NewProposal from types.go; now models the two time.Now() calls. -/
def NewProposal (proposalType title summary : String)
    (details : List (String × String)) (now : Nat) : Proposal :=
  { ID := ""
    Typ := proposalType
    Title := title
    Summary := summary
    Details := details
    Actions := []
    Parameters := []
    Status := ProposalStatusPending
    CreatedAt := now
    UpdatedAt := now }

/-! Proposal store (ProposalService in service.go) -/

/-- Lookup in the association-list model of the Go map proposals. -/
def lookupProp : List (String × Proposal) → String → Option Proposal
  | [], _ => none
  | (k, p) :: rest, id => if k = id then some p else lookupProp rest id

/-- Map write in the association-list model: replace the binding of the
key if present, append otherwise. -/
def insertProp : List (String × Proposal) → String → Proposal → List (String × Proposal)
  | [], id, p => [(id, p)]
  | (k, q) :: rest, id, p =>
    if k = id then (id, p) :: rest else (k, q) :: insertProp rest id p

/-- ProposalService from service.go: the proposals map and the bounded
notification channel, modelled as the list of notifications currently
buffered (no consumer is modelled; the claims consider an undrained
channel). -/
structure ProposalService where
  proposals : List (String × Proposal)
  channel : List Proposal
deriving DecidableEq

/-- Capacity of the notification channel (make(chan *Proposal, 10)). -/
def proposalChanCap : Nat := 10

/-- NewProposalService from service.go. -/
def NewProposalService : ProposalService :=
  { proposals := [], channel := [] }

/-- Create from service.go. freshId models the value of
uuid.New().String() (in Go always a 36-character string, hence nonempty);
now models time.Now(). Returns the returned identifier and the updated
service; the select with default models the non-blocking channel send
that drops the notification when the buffer is full. -/
def ProposalService.Create (s : ProposalService) (proposal : Proposal)
    (freshId : String) (now : Nat) : String × ProposalService :=
  let p1 := if proposal.ID = "" then { proposal with ID := freshId } else proposal
  let p2 := if p1.CreatedAt = 0 then { p1 with CreatedAt := now } else p1
  let p3 := { p2 with UpdatedAt := now }
  let chan2 :=
    if s.channel.length < proposalChanCap then s.channel ++ [p3] else s.channel
  (p3.ID, { proposals := insertProp s.proposals p3.ID p3, channel := chan2 })

/-- Get from service.go. -/
def ProposalService.Get (s : ProposalService) (id : String) : Option Proposal :=
  lookupProp s.proposals id

/-- GetAll from service.go: a snapshot of all stored proposals. -/
def ProposalService.GetAll (s : ProposalService) : List Proposal :=
  s.proposals.map Prod.snd

/-- GetPending from service.go. -/
def ProposalService.GetPending (s : ProposalService) : List Proposal :=
  (s.proposals.map Prod.snd).filter (fun p => p.Status == ProposalStatusPending)

/-- The two error conditions returned by the store operations. -/
inductive PError where
  | notFound (id : String)
  | alreadyProcessed (status : String)
deriving DecidableEq

/-- Accept from service.go. The Go method mutates the receiver and
returns only an error; here it returns the error (none on success) and
the resulting state, the state being unchanged on error. The params
argument is only logged by the source and does not influence the result. -/
def ProposalService.Accept (s : ProposalService) (id : String)
    (params : List (String × String)) (now : Nat) :
    Option PError × ProposalService :=
  match lookupProp s.proposals id with
  | none => (some (.notFound id), s)
  | some p =>
    if p.Status ≠ ProposalStatusPending then
      (some (.alreadyProcessed p.Status), s)
    else
      let p1 := { p with Status := ProposalStatusAccepted, UpdatedAt := now }
      (none, { s with proposals := insertProp s.proposals id p1 })

/-- Ignore from service.go; same shape as Accept. -/
def ProposalService.Ignore (s : ProposalService) (id : String)
    (params : List (String × String)) (now : Nat) :
    Option PError × ProposalService :=
  match lookupProp s.proposals id with
  | none => (some (.notFound id), s)
  | some p =>
    if p.Status ≠ ProposalStatusPending then
      (some (.alreadyProcessed p.Status), s)
    else
      let p1 := { p with Status := ProposalStatusIgnored, UpdatedAt := now }
      (none, { s with proposals := insertProp s.proposals id p1 })

/-- One iteration of the Resubmit update loop: if the key already exists
in Parameters, set the Value of its Param; otherwise leave the list
unchanged. -/
def setParamValue : List (String × Param) → String → String → List (String × Param)
  | [], _, _ => []
  | (k, pr) :: rest, key, value =>
    if k = key then (k, { pr with Value := value }) :: rest
    else (k, pr) :: setParamValue rest key value

/-- The Resubmit update loop over the request parameters; the list order
models the unspecified Go map iteration order. -/
def mergeParams (base : List (String × Param)) (params : List (String × String)) :
    List (String × Param) :=
  params.foldl (fun acc kv => setParamValue acc kv.1 kv.2) base

/-- Resubmit from service.go: returns the updated proposal or a
not-found error, plus the resulting state. -/
def ProposalService.Resubmit (s : ProposalService) (id : String)
    (params : List (String × String)) (now : Nat) :
    Except PError Proposal × ProposalService :=
  match lookupProp s.proposals id with
  | none => (.error (.notFound id), s)
  | some p =>
    let p1 := { p with
                  Parameters := mergeParams p.Parameters params,
                  Status := ProposalStatusModified,
                  UpdatedAt := now }
    (.ok p1, { s with proposals := insertProp s.proposals id p1 })

/-! Schedule parsing (Service.parseSchedule and runActivity in service.go) -/

/-- Decimal value of a digit list. -/
def digitsVal (ds : List Char) : Nat :=
  ds.foldl (fun acc c => acc * 10 + (c.toNat - '0'.toNat)) 0

/-- Magnitude part of the Sscanf %d scan: a maximal leading digit run,
rejected when empty or when the signed value leaves the int64 range
(fmt reports a range error and leaves the destination untouched). -/
def sscanfMag (neg : Bool) (s : List Char) : Option Int :=
  let ds := s.takeWhile Char.isDigit
  if ds.isEmpty then none
  else
    let v : Int := if neg then -(digitsVal ds : Int) else (digitsVal ds : Int)
    if -9223372036854775808 ≤ v ∧ v ≤ 9223372036854775807 then some v else none

/-- Model of fmt.Sscanf with the single verb %d into an int: skip leading
whitespace, accept an optional sign, then a maximal digit run; trailing
input after the integer is ignored. Returns none when the scan fails, in
which case the Go destination variable keeps its zero value. -/
def sscanfD (s : List Char) : Option Int :=
  match s.dropWhile Char.isWhitespace with
  | [] => none
  | c :: rest =>
    if c = '-' then sscanfMag true rest
    else if c = '+' then sscanfMag false rest
    else sscanfMag false (c :: rest)

/-- One nanosecond count per time.Second. -/
def Second : Int := 1000000000

def Minute : Int := 60 * Second

def Hour : Int := 60 * Minute

/-- Wrap an integer into the int64 range, as Go multiplication of
time.Duration values does on overflow. -/
def wrap64 (z : Int) : Int :=
  if z % 18446744073709551616 < 9223372036854775808 then z % 18446744073709551616
  else z % 18446744073709551616 - 18446744073709551616

/-- parseSchedule from service.go, returning a duration in nanoseconds.
The branches mirror the source: an empty expression yields 0; a string of
length at least 2 ending in m, h or s scans its prefix with Sscanf %d and
scales (with int64 wrapping, as time.Duration arithmetic wraps); anything
else yields 30 minutes. -/
def parseSchedule (schedule : List Char) : Int :=
  if schedule = [] then 0
  else if schedule.length ≥ 2 ∧ schedule.getLast? = some 'm' then
    wrap64 ((sscanfD schedule.dropLast).getD 0 * Minute)
  else if schedule.length ≥ 2 ∧ schedule.getLast? = some 'h' then
    wrap64 ((sscanfD schedule.dropLast).getD 0 * Hour)
  else if schedule.length ≥ 2 ∧ schedule.getLast? = some 's' then
    wrap64 ((sscanfD schedule.dropLast).getD 0 * Second)
  else
    30 * Minute

/-- The interval actually used by the runActivity loop: parseSchedule,
with nonpositive results replaced by the 30-minute default. -/
def effectiveInterval (schedule : List Char) : Int :=
  let interval := parseSchedule schedule
  if interval ≤ 0 then 30 * Minute else interval

/-! Scheduler lifecycle (Service.Start and Service.Stop in service.go)

The scheduler state is reduced to what Start and Stop touch: the
activities map, each activity carrying the closed/open state of its stop
channel, and the cancelled state of the shared context. Each runActivity
goroutine returns (marking the wait group done) as soon as it observes
its stop channel closed or the context cancelled, so after a Stop that
closed every channel, the wait-group join returns and no loop is
running. Closing an already-closed channel panics in Go; Stop is
therefore modelled as returning an error exactly when it would panic. -/

structure SchedService where
  activities : List (String × Bool)
  cancelled : Bool
deriving DecidableEq

/-- Start from service.go, given the configured activities as pairs of
name and enabled flag: every enabled activity is registered with a fresh
(open) stop channel and its loop is launched. -/
def SchedService.start (cfg : List (String × Bool)) : SchedService :=
  { activities := (cfg.filter (fun a => a.2)).map (fun a => (a.1, false))
    cancelled := false }

/-- The state of a scheduler on which Start was never called: the
activities map made by NewService is empty. -/
def neverStarted : SchedService :=
  { activities := [], cancelled := false }

/-- The close(activity.stopCh) loop of Stop: closing a channel that is
already closed panics. -/
def closeAll : List (String × Bool) → Except String (List (String × Bool))
  | [] => .ok []
  | (n, closed) :: rest =>
    if closed then .error "close of closed channel"
    else
      match closeAll rest with
      | .error e => .error e
      | .ok rest2 => .ok ((n, true) :: rest2)

/-- Stop from service.go: cancel the shared context, then close every
stop channel (panicking, i.e. erroring here, on a channel already
closed); the wait-group join is implicit in the loop-exit condition
below. -/
def SchedService.Stop (s : SchedService) : Except String SchedService :=
  match closeAll s.activities with
  | .error e => .error e
  | .ok acts => .ok { activities := acts, cancelled := true }

/-- A runActivity loop is still running exactly when neither its stop
channel is closed nor the context is cancelled. -/
def loopRunning (s : SchedService) (a : String × Bool) : Prop :=
  a.2 = false ∧ s.cancelled = false

/-! Lemmas about the association-list map model -/

theorem lookupProp_insertProp_self :
    ∀ (l : List (String × Proposal)) (id : String) (p : Proposal),
    lookupProp (insertProp l id p) id = some p
  | [], id, p => by simp [insertProp, lookupProp]
  | (k, q) :: rest, id, p => by
    by_cases h : k = id
    · simp [insertProp, h, lookupProp]
    · simp [insertProp, h, lookupProp, lookupProp_insertProp_self rest id p]

theorem lookupProp_insertProp_ne :
    ∀ (l : List (String × Proposal)) (id k' : String) (p : Proposal), k' ≠ id →
    lookupProp (insertProp l id p) k' = lookupProp l k'
  | [], id, k', p, h => by simp [insertProp, lookupProp, Ne.symm h]
  | (k, q) :: rest, id, k', p, h => by
    by_cases hk : k = id
    · subst hk
      simp [insertProp, lookupProp, Ne.symm h]
    · by_cases hk2 : k = k'
      · subst hk2
        simp [insertProp, hk, lookupProp]
      · simp [insertProp, hk, lookupProp, hk2,
          lookupProp_insertProp_ne rest id k' p h]

theorem lookupProp_eq_none_iff :
    ∀ (l : List (String × Proposal)) (id : String),
    lookupProp l id = none ↔ id ∉ l.map Prod.fst
  | [], id => by simp [lookupProp]
  | (k, q) :: rest, id => by
    by_cases h : k = id
    · simp [lookupProp, h]
    · simp [lookupProp, h, Ne.symm h, lookupProp_eq_none_iff rest id]

theorem keys_insertProp_of_found :
    ∀ (l : List (String × Proposal)) (id : String) (p : Proposal),
    lookupProp l id ≠ none →
    (insertProp l id p).map Prod.fst = l.map Prod.fst
  | [], id, p, h => by simp [lookupProp] at h
  | (k, q) :: rest, id, p, h => by
    by_cases hk : k = id
    · simp [insertProp, hk]
    · simp only [lookupProp, hk, if_false] at h
      simp [insertProp, hk, keys_insertProp_of_found rest id p h]

theorem keys_insertProp_of_not_found :
    ∀ (l : List (String × Proposal)) (id : String) (p : Proposal),
    lookupProp l id = none →
    (insertProp l id p).map Prod.fst = l.map Prod.fst ++ [id]
  | [], id, p, _ => by simp [insertProp]
  | (k, q) :: rest, id, p, h => by
    by_cases hk : k = id
    · simp [lookupProp, hk] at h
    · simp only [lookupProp, hk, if_false] at h
      simp [insertProp, hk, keys_insertProp_of_not_found rest id p h]

theorem length_insertProp_of_not_found (l : List (String × Proposal))
    (id : String) (p : Proposal) (h : lookupProp l id = none) :
    (insertProp l id p).length = l.length + 1 := by
  have := keys_insertProp_of_not_found l id p h
  have h1 : ((insertProp l id p).map Prod.fst).length = (l.map Prod.fst ++ [id]).length := by
    rw [this]
  simpa using h1

theorem nodup_keys_insertProp (l : List (String × Proposal)) (id : String)
    (p : Proposal) (h : (l.map Prod.fst).Nodup) :
    ((insertProp l id p).map Prod.fst).Nodup := by
  by_cases hf : lookupProp l id = none
  · rw [keys_insertProp_of_not_found l id p hf]
    have hid : id ∉ l.map Prod.fst := (lookupProp_eq_none_iff l id).mp hf
    simp [List.nodup_append, h, hid]
  · rw [keys_insertProp_of_found l id p hf]
    exact h

/-! Lemmas characterising Create -/

theorem create_fst (s : ProposalService) (p : Proposal) (f : String) (n : Nat) :
    (s.Create p f n).1 = if p.ID = "" then f else p.ID := by
  unfold ProposalService.Create
  by_cases h1 : p.ID = "" <;> by_cases h2 : p.CreatedAt = 0 <;> simp [h1, h2]

theorem create_proposals (s : ProposalService) (p : Proposal) (f : String) (n : Nat) :
    (s.Create p f n).2.proposals =
      insertProp s.proposals (if p.ID = "" then f else p.ID)
        { p with ID := if p.ID = "" then f else p.ID,
                 CreatedAt := if p.CreatedAt = 0 then n else p.CreatedAt,
                 UpdatedAt := n } := by
  unfold ProposalService.Create
  by_cases h1 : p.ID = "" <;> by_cases h2 : p.CreatedAt = 0 <;> simp [h1, h2]

theorem create_channel_length (s : ProposalService) (p : Proposal) (f : String)
    (n : Nat) (h : s.channel.length ≤ proposalChanCap) :
    (s.Create p f n).2.channel.length = min (s.channel.length + 1) proposalChanCap := by
  have hcase : (s.Create p f n).2.channel.length =
      if s.channel.length < proposalChanCap then s.channel.length + 1
      else s.channel.length := by
    unfold ProposalService.Create
    by_cases hlt : s.channel.length < proposalChanCap <;> simp [hlt]
  rw [hcase]
  unfold proposalChanCap at h ⊢
  by_cases hlt : s.channel.length < 10
  · simp only [hlt, if_true]
    omega
  · simp only [hlt, if_false]
    omega

/-! Concrete fixtures used by witnesses -/

def sampleParam : Param :=
  { Key := "batch_size", Label := "Batch", Typ := "number", Value := "5", Options := [] }

def sampleProposal : Proposal :=
  { ID := "p1"
    Typ := "risk"
    Title := "suspicious host"
    Summary := "summary"
    Details := [("host", "a.example")]
    Actions := []
    Parameters := [("batch_size", sampleParam)]
    Status := ProposalStatusPending
    CreatedAt := 1
    UpdatedAt := 1 }

def sampleService : ProposalService :=
  { proposals := [("p1", sampleProposal)], channel := [] }

/-! Claim C1 -/

/-- Claim C1: for a stored pending proposal, Accept moves it to accepted
and Ignore to ignored; both return a not-found error on an unknown id,
leaving the store (hence GetAll) unchanged, and an already-processed
error on a non-pending proposal; after Accept then Ignore (or Ignore
then Accept) on the same id the second call fails with already-processed,
the state is untouched by it, and the status stays the outcome of the
first call. -/
theorem accept_ignore_state_machine (s : ProposalService) (id : String)
    (pa pi pa2 pi2 : List (String × String)) (n1 n2 : Nat) :
    (s.Get id = none →
      s.Accept id pa n1 = (some (.notFound id), s) ∧
      s.Ignore id pi n1 = (some (.notFound id), s) ∧
      (s.Accept id pa n1).2.GetAll = s.GetAll ∧
      (s.Ignore id pi n1).2.GetAll = s.GetAll)
    ∧ (∀ p, s.Get id = some p → p.Status ≠ ProposalStatusPending →
      s.Accept id pa n1 = (some (.alreadyProcessed p.Status), s) ∧
      s.Ignore id pi n1 = (some (.alreadyProcessed p.Status), s))
    ∧ (∀ p, s.Get id = some p → p.Status = ProposalStatusPending →
      (s.Accept id pa n1).1 = none ∧
      (s.Accept id pa n1).2.Get id =
        some { p with Status := ProposalStatusAccepted, UpdatedAt := n1 } ∧
      (s.Ignore id pi n1).1 = none ∧
      (s.Ignore id pi n1).2.Get id =
        some { p with Status := ProposalStatusIgnored, UpdatedAt := n1 } ∧
      (s.Accept id pa n1).2.Ignore id pi2 n2 =
        (some (.alreadyProcessed ProposalStatusAccepted), (s.Accept id pa n1).2) ∧
      (s.Ignore id pi n1).2.Accept id pa2 n2 =
        (some (.alreadyProcessed ProposalStatusIgnored), (s.Ignore id pi n1).2)) := by
  refine ⟨?_, ?_, ?_⟩
  · intro h
    simp only [ProposalService.Get] at h
    simp [ProposalService.Accept, ProposalService.Ignore, h]
  · intro p hp hs
    simp only [ProposalService.Get] at hp
    simp [ProposalService.Accept, ProposalService.Ignore, hp, hs]
  · intro p hp hs
    simp only [ProposalService.Get] at hp
    have hacc : s.Accept id pa n1 =
        (none, { s with proposals := insertProp s.proposals id ({ p with Status := ProposalStatusAccepted, UpdatedAt := n1 }) }) := by
      simp [ProposalService.Accept, hp, hs]
    have hign : s.Ignore id pi n1 =
        (none, { s with proposals := insertProp s.proposals id ({ p with Status := ProposalStatusIgnored, UpdatedAt := n1 }) }) := by
      simp [ProposalService.Ignore, hp, hs]
    refine ⟨by rw [hacc], ?_, by rw [hign], ?_, ?_, ?_⟩
    · rw [hacc]
      simp [ProposalService.Get, lookupProp_insertProp_self]
    · rw [hign]
      simp [ProposalService.Get, lookupProp_insertProp_self]
    · rw [hacc]
      simp [ProposalService.Ignore, lookupProp_insertProp_self,
        ProposalStatusAccepted, ProposalStatusPending]
    · rw [hign]
      simp [ProposalService.Accept, lookupProp_insertProp_self,
        ProposalStatusIgnored, ProposalStatusPending]

/-- Witness for C1 on a concrete one-proposal store. -/
theorem accept_ignore_state_machine_witness :
    (sampleService.Accept "p1" [] 2).1 = none ∧
    (sampleService.Accept "p1" [] 2).2.Ignore "p1" [] 3 =
      (some (.alreadyProcessed ProposalStatusAccepted),
        (sampleService.Accept "p1" [] 2).2) ∧
    sampleService.Accept "zz" [] 2 = (some (.notFound "zz"), sampleService) := by
  have h := accept_ignore_state_machine sampleService "p1" [] [] [] [] 2 3
  have h3 := h.2.2 sampleProposal (by decide) (by decide)
  have hz := accept_ignore_state_machine sampleService "zz" [] [] [] [] 2 3
  exact ⟨h3.1, h3.2.2.2.2.1, (hz.1 (by decide)).1⟩

/-! Claim C9 -/

/-- Claim C9: Accept and Ignore change only the Status and UpdatedAt
fields of the stored proposal; the params argument is never written into
the proposal (the result does not depend on it at all), and ID, Type,
Title, Summary, Details, Actions, Parameters and CreatedAt survive a
successful Accept or Ignore unchanged. -/
theorem accept_ignore_frame (s : ProposalService) (id : String)
    (params params2 : List (String × String)) (n : Nat) :
    s.Accept id params n = s.Accept id params2 n ∧
    s.Ignore id params n = s.Ignore id params2 n ∧
    (∀ p, s.Get id = some p → p.Status = ProposalStatusPending →
      ∃ q, (s.Accept id params n).2.Get id = some q ∧
        q.ID = p.ID ∧ q.Typ = p.Typ ∧ q.Title = p.Title ∧ q.Summary = p.Summary ∧
        q.Details = p.Details ∧ q.Actions = p.Actions ∧
        q.Parameters = p.Parameters ∧ q.CreatedAt = p.CreatedAt ∧
        q.Status = ProposalStatusAccepted ∧ q.UpdatedAt = n) ∧
    (∀ p, s.Get id = some p → p.Status = ProposalStatusPending →
      ∃ q, (s.Ignore id params n).2.Get id = some q ∧
        q.ID = p.ID ∧ q.Typ = p.Typ ∧ q.Title = p.Title ∧ q.Summary = p.Summary ∧
        q.Details = p.Details ∧ q.Actions = p.Actions ∧
        q.Parameters = p.Parameters ∧ q.CreatedAt = p.CreatedAt ∧
        q.Status = ProposalStatusIgnored ∧ q.UpdatedAt = n) := by
  refine ⟨rfl, rfl, ?_, ?_⟩
  · intro p hp hs
    simp only [ProposalService.Get] at hp
    refine ⟨{ p with Status := ProposalStatusAccepted, UpdatedAt := n }, ?_,
      rfl, rfl, rfl, rfl, rfl, rfl, rfl, rfl, rfl, rfl⟩
    simp [ProposalService.Accept, hp, hs, ProposalService.Get,
      lookupProp_insertProp_self]
  · intro p hp hs
    simp only [ProposalService.Get] at hp
    refine ⟨{ p with Status := ProposalStatusIgnored, UpdatedAt := n }, ?_,
      rfl, rfl, rfl, rfl, rfl, rfl, rfl, rfl, rfl, rfl⟩
    simp [ProposalService.Ignore, hp, hs, ProposalService.Get,
      lookupProp_insertProp_self]

/-- Witness for C9 on the concrete one-proposal store. -/
theorem accept_ignore_frame_witness :
    ∃ q, (sampleService.Accept "p1" [("x", "y")] 7).2.Get "p1" = some q ∧
      q.ID = sampleProposal.ID ∧ q.Typ = sampleProposal.Typ ∧
      q.Title = sampleProposal.Title ∧ q.Summary = sampleProposal.Summary ∧
      q.Details = sampleProposal.Details ∧ q.Actions = sampleProposal.Actions ∧
      q.Parameters = sampleProposal.Parameters ∧
      q.CreatedAt = sampleProposal.CreatedAt ∧
      q.Status = ProposalStatusAccepted ∧ q.UpdatedAt = 7 := by
  have h := accept_ignore_frame sampleService "p1" [("x", "y")] [] 7
  exact h.2.2.1 sampleProposal (by decide) (by decide)

/-! Lemmas about the Resubmit parameter merge -/

/-- Lookup in the association-list model of the Parameters map. -/
def lookupParam : List (String × Param) → String → Option Param
  | [], _ => none
  | (k, pr) :: rest, key => if k = key then some pr else lookupParam rest key

theorem keys_setParamValue :
    ∀ (l : List (String × Param)) (k v : String),
    (setParamValue l k v).map Prod.fst = l.map Prod.fst
  | [], _, _ => rfl
  | (k1, pr) :: rest, k, v => by
    by_cases h : k1 = k <;> simp [setParamValue, h, keys_setParamValue rest k v]

theorem mergeParams_cons (base : List (String × Param)) (kv : String × String)
    (rest : List (String × String)) :
    mergeParams base (kv :: rest) = mergeParams (setParamValue base kv.1 kv.2) rest := rfl

theorem keys_mergeParams :
    ∀ (params : List (String × String)) (base : List (String × Param)),
    (mergeParams base params).map Prod.fst = base.map Prod.fst
  | [], _ => rfl
  | kv :: rest, base => by
    rw [mergeParams_cons, keys_mergeParams rest _, keys_setParamValue]

theorem lookupParam_setParamValue :
    ∀ (l : List (String × Param)) (k v k' : String),
    lookupParam (setParamValue l k v) k' =
      if k' = k then (lookupParam l k).map (fun pr => { pr with Value := v })
      else lookupParam l k'
  | [], k, v, k' => by
    by_cases h : k' = k <;> simp [setParamValue, lookupParam, h]
  | (k1, pr) :: rest, k, v, k' => by
    by_cases h1 : k1 = k
    · subst h1
      by_cases h2 : k1 = k'
      · subst h2
        simp [setParamValue, lookupParam]
      · simp [setParamValue, lookupParam, h2, Ne.symm h2]
    · by_cases h2 : k1 = k'
      · subst h2
        simp [setParamValue, lookupParam, h1, Ne.symm h1]
      · simp [setParamValue, lookupParam, h1, h2, Ne.symm h2,
          lookupParam_setParamValue rest k v k']

/-- The value the Resubmit loop leaves for a key that exists in the
Parameters map: the value of the last request entry with that key, or
the default when the key does not occur in the request. -/
def lastVal (params : List (String × String)) (k d : String) : String :=
  params.foldl (fun acc kv => if kv.1 = k then kv.2 else acc) d

theorem lastVal_cons (kv : String × String) (rest : List (String × String))
    (k d : String) :
    lastVal (kv :: rest) k d = lastVal rest k (if kv.1 = k then kv.2 else d) := rfl

theorem lookupParam_mergeParams :
    ∀ (params : List (String × String)) (base : List (String × Param)) (k : String),
    lookupParam (mergeParams base params) k =
      (lookupParam base k).map (fun pr => { pr with Value := lastVal params k pr.Value })
  | [], base, k => by
    cases h : lookupParam base k <;> simp [mergeParams, lastVal, h]
  | kv :: rest, base, k => by
    rw [mergeParams_cons, lookupParam_mergeParams rest _ k,
      lookupParam_setParamValue]
    by_cases h : k = kv.1
    · subst h
      cases lookupParam base kv.1 <;> simp [lastVal_cons]
    · simp [h, lastVal_cons, Ne.symm h]

/-! Claim C2 -/

/-- Claim C2: Resubmit succeeds on every stored proposal regardless of
its current status, sets the status to modified, and merges the supplied
values only into parameter keys that already exist (unknown names are
ignored, so the key set of Parameters is unchanged, and an existing key
receives the supplied value); it fails only with a not-found error when
the id is absent, leaving the state unchanged. -/
theorem resubmit_any_status (s : ProposalService) (id : String)
    (params : List (String × String)) (n : Nat) :
    (s.Get id = none → s.Resubmit id params n = (.error (.notFound id), s))
    ∧ (∀ p, s.Get id = some p →
      ∃ q, (s.Resubmit id params n).1 = .ok q ∧
        (s.Resubmit id params n).2.Get id = some q ∧
        q.Status = ProposalStatusModified ∧ q.UpdatedAt = n ∧
        q.ID = p.ID ∧ q.Typ = p.Typ ∧ q.Title = p.Title ∧ q.Summary = p.Summary ∧
        q.Details = p.Details ∧ q.Actions = p.Actions ∧ q.CreatedAt = p.CreatedAt ∧
        q.Parameters.map Prod.fst = p.Parameters.map Prod.fst ∧
        (∀ k, lookupParam q.Parameters k =
          (lookupParam p.Parameters k).map
            (fun pr => { pr with Value := lastVal params k pr.Value }))) := by
  constructor
  · intro h
    simp only [ProposalService.Get] at h
    simp [ProposalService.Resubmit, h]
  · intro p hp
    simp only [ProposalService.Get] at hp
    refine ⟨{ p with
                Parameters := mergeParams p.Parameters params,
                Status := ProposalStatusModified,
                UpdatedAt := n }, ?_, ?_,
      rfl, rfl, rfl, rfl, rfl, rfl, rfl, rfl, rfl, ?_, ?_⟩
    · simp [ProposalService.Resubmit, hp]
    · simp [ProposalService.Resubmit, hp, ProposalService.Get,
        lookupProp_insertProp_self]
    · exact keys_mergeParams params p.Parameters
    · intro k
      exact lookupParam_mergeParams params p.Parameters k

/-- Witness for C2: resubmitting an accepted proposal on a concrete
store succeeds, moves it to modified, updates the existing key and
ignores the unknown one. -/
theorem resubmit_any_status_witness :
    ∃ q, ((sampleService.Accept "p1" [] 2).2.Resubmit "p1"
        [("batch_size", "9"), ("unknown", "1")] 5).1 = .ok q ∧
      q.Status = ProposalStatusModified ∧
      q.Parameters.map Prod.fst = [("batch_size", sampleParam)].map Prod.fst ∧
      lookupParam q.Parameters "batch_size" =
        some { sampleParam with Value := "9" } ∧
      lookupParam q.Parameters "unknown" = none := by
  have h := resubmit_any_status (sampleService.Accept "p1" [] 2).2 "p1"
    [("batch_size", "9"), ("unknown", "1")] 5
  have h2 := h.2 ({ sampleProposal with Status := ProposalStatusAccepted, UpdatedAt := 2 }) (by decide)
  obtain ⟨q, hok, _, hst, _, _, _, _, _, _, _, _, hkeys, hvals⟩ := h2
  refine ⟨q, hok, hst, ?_, ?_, ?_⟩
  · rw [hkeys]; decide
  · rw [hvals "batch_size"]; decide
  · rw [hvals "unknown"]; decide

theorem get_after_insert (l : List (String × Proposal)) (id : String)
    (p1 : Proposal) (k : String) :
    lookupProp (insertProp l id p1) k = if k = id then some p1 else lookupProp l k := by
  by_cases hk : k = id
  · subst hk
    simp [lookupProp_insertProp_self]
  · simp [hk, lookupProp_insertProp_ne _ _ _ _ hk]

/-! Claim C3 -/

/-- Repeated Create calls, modelling rapid creation with no consumer
draining the channel; all calls share the fresh-id source and the clock,
which the claims do not depend on. -/
def foldCreate (s : ProposalService) (ps : List Proposal) (fresh : String)
    (now : Nat) : ProposalService :=
  ps.foldl (fun acc p => (acc.Create p fresh now).2) s

theorem foldCreate_cons (s : ProposalService) (p : Proposal) (rest : List Proposal)
    (fresh : String) (now : Nat) :
    foldCreate s (p :: rest) fresh now =
      foldCreate (s.Create p fresh now).2 rest fresh now := rfl

theorem foldCreate_channel_length :
    ∀ (ps : List Proposal) (s : ProposalService) (fresh : String) (now : Nat),
    s.channel.length ≤ proposalChanCap →
    (foldCreate s ps fresh now).channel.length =
      min (s.channel.length + ps.length) proposalChanCap
  | [], s, fresh, now, h => by
    unfold proposalChanCap at h
    simp [foldCreate, proposalChanCap, Nat.min_def, h]
  | p :: rest, s, fresh, now, h => by
    have hstep := create_channel_length s p fresh now h
    have hle : (s.Create p fresh now).2.channel.length ≤ proposalChanCap := by
      rw [hstep]
      exact Nat.min_le_right _ _
    rw [foldCreate_cons,
      foldCreate_channel_length rest (s.Create p fresh now).2 fresh now hle, hstep]
    simp only [List.length_cons, proposalChanCap, Nat.min_def]
    unfold proposalChanCap at h
    split_ifs <;> omega

theorem foldCreate_getAll_length :
    ∀ (ps : List Proposal) (s : ProposalService) (fresh : String) (now : Nat),
    (∀ p ∈ ps, p.ID ≠ "") →
    (ps.map Proposal.ID).Nodup →
    (∀ p ∈ ps, lookupProp s.proposals p.ID = none) →
    (foldCreate s ps fresh now).GetAll.length = s.GetAll.length + ps.length
  | [], s, fresh, now, _, _, _ => by simp [foldCreate, ProposalService.GetAll]
  | p :: rest, s, fresh, now, h1, h2, h3 => by
    have hid : p.ID ≠ "" := h1 p (by simp)
    have habs : lookupProp s.proposals p.ID = none := h3 p (by simp)
    have hprop := create_proposals s p fresh now
    rw [if_neg hid] at hprop
    have hlen : (s.Create p fresh now).2.proposals.length = s.proposals.length + 1 := by
      rw [hprop]
      exact length_insertProp_of_not_found _ _ _ habs
    have habs2 : ∀ q ∈ rest, lookupProp (s.Create p fresh now).2.proposals q.ID = none := by
      intro q hq
      have hne : q.ID ≠ p.ID := by
        intro he
        simp at h2
        exact h2.1 q hq he
      rw [hprop, lookupProp_insertProp_ne _ _ _ _ hne]
      exact h3 q (by simp [hq])
    rw [foldCreate_cons, foldCreate_getAll_length rest (s.Create p fresh now).2 fresh now
      (fun q hq => h1 q (by simp [hq])) h2.of_cons habs2]
    simp only [ProposalService.GetAll, List.length_map]
    rw [hlen]
    simp [List.length_cons]
    omega

/-- Claim C3: Create always stores the proposal and returns its id
regardless of the notification outcome; the notification channel has
capacity 10 and the non-blocking send drops the notification when the
channel is full, so 11 successive creations against an undrained channel
leave exactly 10 deliverable notifications while GetAll still returns
all 11 stored proposals. -/
theorem create_stores_notification_dropped (ps : List Proposal)
    (fresh : String) (now : Nat)
    (h1 : ∀ p ∈ ps, p.ID ≠ "")
    (h2 : (ps.map Proposal.ID).Nodup)
    (hlen : ps.length = 11) :
    proposalChanCap = 10
    ∧ (∀ (s : ProposalService) (p : Proposal),
        ((s.Create p fresh now).2.Get (s.Create p fresh now).1).isSome = true)
    ∧ (foldCreate NewProposalService ps fresh now).channel.length = 10
    ∧ (foldCreate NewProposalService ps fresh now).GetAll.length = 11 := by
  refine ⟨rfl, ?_, ?_, ?_⟩
  · intro s p
    rw [ProposalService.Get, create_proposals, create_fst,
      lookupProp_insertProp_self]
    rfl
  · rw [foldCreate_channel_length ps NewProposalService fresh now (by simp [NewProposalService, proposalChanCap])]
    simp [NewProposalService, hlen, proposalChanCap]
  · rw [foldCreate_getAll_length ps NewProposalService fresh now h1 h2
      (fun p _ => rfl)]
    simp [NewProposalService, ProposalService.GetAll, hlen]

def idProposal (i : String) : Proposal :=
  { sampleProposal with ID := i }

def elevenProposals : List Proposal :=
  ["a", "b", "c", "d", "e", "f", "g", "h", "i", "j", "k"].map idProposal

/-- Witness for C3 on eleven concrete proposals. -/
theorem create_stores_notification_dropped_witness :
    (foldCreate NewProposalService elevenProposals "f0" 1).channel.length = 10
    ∧ (foldCreate NewProposalService elevenProposals "f0" 1).GetAll.length = 11 := by
  have h := create_stores_notification_dropped elevenProposals "f0" 1
    (by decide) (by decide) (by decide)
  exact ⟨h.2.2.1, h.2.2.2⟩

theorem get_created (s : ProposalService) (p : Proposal) (fresh : String)
    (now : Nat) :
    (s.Create p fresh now).2.Get (s.Create p fresh now).1 =
      some { p with ID := if p.ID = "" then fresh else p.ID,
                    CreatedAt := if p.CreatedAt = 0 then now else p.CreatedAt,
                    UpdatedAt := now } := by
  rw [ProposalService.Get, create_proposals, create_fst,
    lookupProp_insertProp_self]

/-! Claim C6 -/

/-- Claim C6: a newly created proposal has status pending and a nonempty
id: NewProposal constructs it with status pending and empty id, and after
Create the stored proposal carries the returned identifier, which is
nonempty (the fresh uuid when the incoming id is absent, the incoming id
otherwise); Create keeps the status, so the NewProposal-then-Create path
stores it pending. -/
theorem create_new_proposal_pending (s : ProposalService) (p : Proposal)
    (fresh : String) (now : Nat) (hf : fresh ≠ "") :
    (∃ q, (s.Create p fresh now).2.Get (s.Create p fresh now).1 = some q ∧
      q.ID = (s.Create p fresh now).1 ∧ q.Status = p.Status)
    ∧ (s.Create p fresh now).1 ≠ ""
    ∧ (p.ID = "" → (s.Create p fresh now).1 = fresh)
    ∧ (p.ID ≠ "" → (s.Create p fresh now).1 = p.ID)
    ∧ (∀ t ti su d m, (NewProposal t ti su d m).Status = ProposalStatusPending ∧
        (NewProposal t ti su d m).ID = "" ∧
        ((s.Create (NewProposal t ti su d m) fresh now).2.Get
            (s.Create (NewProposal t ti su d m) fresh now).1).map Proposal.Status =
          some ProposalStatusPending) := by
  refine ⟨?_, ?_, ?_, ?_, ?_⟩
  · refine ⟨_, get_created s p fresh now, ?_, rfl⟩
    rw [create_fst]
  · rw [create_fst]
    by_cases h : p.ID = "" <;> simp [h, hf]
  · intro h
    rw [create_fst, if_pos h]
  · intro h
    rw [create_fst, if_neg h]
  · intro t ti su d m
    refine ⟨rfl, rfl, ?_⟩
    rw [get_created]
    simp [NewProposal]

/-- Witness for C6: the NewProposal-then-Create path on an empty store. -/
theorem create_new_proposal_pending_witness :
    (NewProposalService.Create (NewProposal "risk" "t" "s" [] 4) "u1" 4).1 = "u1"
    ∧ ((NewProposalService.Create (NewProposal "risk" "t" "s" [] 4) "u1" 4).2.Get "u1").map
        Proposal.Status = some ProposalStatusPending := by
  have h := create_new_proposal_pending NewProposalService
    (NewProposal "risk" "t" "s" [] 4) "u1" 4 (by decide)
  have h1 := h.2.2.1 (by decide)
  have h2 := (h.2.2.2.2 "risk" "t" "s" [] 4).2.2
  rw [h1] at h2
  exact ⟨h1, h2⟩

/-! Claim C10 -/

/-- Claim C10: Create writes only the ID field (and only when the
incoming id is empty), the CreatedAt field (and only when the incoming
timestamp is zero) and the UpdatedAt field; it never sets Status, so a
proposal with the zero-value empty status is stored with that empty
status, not pending. -/
theorem create_frame (s : ProposalService) (p : Proposal) (fresh : String)
    (now : Nat) :
    ∃ q, (s.Create p fresh now).2.Get (s.Create p fresh now).1 = some q ∧
      q.Typ = p.Typ ∧ q.Title = p.Title ∧ q.Summary = p.Summary ∧
      q.Details = p.Details ∧ q.Actions = p.Actions ∧ q.Parameters = p.Parameters ∧
      q.Status = p.Status ∧ q.UpdatedAt = now ∧
      (p.ID = "" → q.ID = fresh) ∧ (p.ID ≠ "" → q.ID = p.ID) ∧
      (p.CreatedAt = 0 → q.CreatedAt = now) ∧
      (p.CreatedAt ≠ 0 → q.CreatedAt = p.CreatedAt) ∧
      (p.Status = "" → q.Status = "") := by
  refine ⟨_, get_created s p fresh now, rfl, rfl, rfl, rfl, rfl, rfl, rfl, rfl,
    ?_, ?_, ?_, ?_, ?_⟩
  · intro h
    simp [h]
  · intro h
    simp [h]
  · intro h
    simp [h]
  · intro h
    simp [h]
  · intro h
    simp [h]

/-- Witness for C10: a proposal carrying the zero-value empty status is
stored with the empty status. -/
theorem create_frame_witness :
    ∃ q, (NewProposalService.Create ({ sampleProposal with Status := "" }) "u2" 9).2.Get
        (NewProposalService.Create ({ sampleProposal with Status := "" }) "u2" 9).1 = some q ∧
      q.Status = "" ∧ q.ID = "p1" ∧ q.CreatedAt = 1 ∧ q.UpdatedAt = 9 := by
  have h := create_frame NewProposalService ({ sampleProposal with Status := "" }) "u2" 9
  obtain ⟨q, hget, _, _, _, _, _, _, hstat, hupd, _, hid, _, hca, hemp⟩ := h
  exact ⟨q, hget, hemp rfl, hid (by decide), hca (by decide), hupd⟩

/-! Claim C8 -/

/-- The store keys its map by proposal id: every stored proposal carries
the key it is stored under. Holds for the empty store and is preserved by
every operation. -/
def WFStore (s : ProposalService) : Prop :=
  ∀ k p, lookupProp s.proposals k = some p → p.ID = k

/-- The association-list image of the Go map has no duplicate keys. -/
def NodupKeys (s : ProposalService) : Prop :=
  (s.proposals.map Prod.fst).Nodup

theorem wf_insertProp (l : List (String × Proposal)) (id : String) (q : Proposal)
    (hq : q.ID = id) (h : ∀ k r, lookupProp l k = some r → r.ID = k) :
    ∀ k r, lookupProp (insertProp l id q) k = some r → r.ID = k := by
  intro k r hr
  rw [get_after_insert] at hr
  by_cases hk : k = id
  · rw [if_pos hk] at hr
    cases hr
    exact hk ▸ hq
  · rw [if_neg hk] at hr
    exact h k r hr

theorem lookup_some_mem_keys (l : List (String × Proposal)) (k : String)
    (r : Proposal) (h : lookupProp l k = some r) : k ∈ l.map Prod.fst := by
  by_contra hmem
  rw [← lookupProp_eq_none_iff] at hmem
  rw [hmem] at h
  cases h

theorem ids_eq_keys :
    ∀ (l : List (String × Proposal)),
    (l.map Prod.fst).Nodup →
    (∀ k r, lookupProp l k = some r → r.ID = k) →
    l.map (fun kp => (Prod.snd kp).ID) = l.map Prod.fst
  | [], _, _ => rfl
  | (k1, q1) :: rest, hnd, hwf => by
    have hhead : q1.ID = k1 := hwf k1 q1 (by simp [lookupProp])
    have hnd2 : (rest.map Prod.fst).Nodup := hnd.of_cons
    have hk1 : k1 ∉ rest.map Prod.fst := by
      simp only [List.map_cons, List.nodup_cons] at hnd
      exact hnd.1
    have hwf2 : ∀ k r, lookupProp rest k = some r → r.ID = k := by
      intro k r hr
      have hkmem := lookup_some_mem_keys rest k r hr
      have hne : k1 ≠ k := by
        intro he
        exact hk1 (he ▸ hkmem)
      have : lookupProp ((k1, q1) :: rest) k = some r := by
        simp [lookupProp, hne, hr]
      exact hwf k r this
    simp only [List.map_cons, hhead]
    rw [ids_eq_keys rest hnd2 hwf2]

/-- Claim C8: proposal ids are immutable and unique within the store.
The empty store is well formed (keys match ids, no duplicate keys), every
operation preserves well-formedness — in particular a Create whose
argument carries an id already in the store replaces that entry rather
than duplicating the id — the snapshot of a well-formed store never
contains two distinct proposals with the same id, and no operation
changes the id of a proposal already stored. -/
theorem proposal_id_unique_immutable (s : ProposalService) (p : Proposal)
    (id fresh : String) (params : List (String × String)) (now : Nat)
    (hwf : WFStore s) (hnd : NodupKeys s) :
    (WFStore NewProposalService ∧ NodupKeys NewProposalService)
    ∧ ((s.GetAll.map Proposal.ID).Nodup)
    ∧ (WFStore (s.Create p fresh now).2 ∧ NodupKeys (s.Create p fresh now).2)
    ∧ (WFStore (s.Accept id params now).2 ∧ NodupKeys (s.Accept id params now).2)
    ∧ (WFStore (s.Ignore id params now).2 ∧ NodupKeys (s.Ignore id params now).2)
    ∧ (WFStore (s.Resubmit id params now).2 ∧ NodupKeys (s.Resubmit id params now).2)
    ∧ (∀ k q, s.Get k = some q →
        ∃ r, (s.Create p fresh now).2.Get k = some r ∧ r.ID = q.ID)
    ∧ (∀ k q, s.Get k = some q →
        ∃ r, (s.Accept id params now).2.Get k = some r ∧ r.ID = q.ID)
    ∧ (∀ k q, s.Get k = some q →
        ∃ r, (s.Ignore id params now).2.Get k = some r ∧ r.ID = q.ID)
    ∧ (∀ k q, s.Get k = some q →
        ∃ r, (s.Resubmit id params now).2.Get k = some r ∧ r.ID = q.ID) := by
  have hids : s.GetAll.map Proposal.ID = s.proposals.map Prod.fst := by
    rw [ProposalService.GetAll, List.map_map]
    exact ids_eq_keys s.proposals hnd hwf
  refine ⟨⟨?_, ?_⟩, ?_, ⟨?_, ?_⟩, ?_, ?_, ?_, ?_, ?_, ?_, ?_⟩
  · intro k q h
    cases h
  · simp [NodupKeys, NewProposalService]
  · rw [hids]
    exact hnd
  · rw [WFStore, create_proposals]
    exact wf_insertProp _ _ _ rfl hwf
  · rw [NodupKeys, create_proposals]
    exact nodup_keys_insertProp _ _ _ hnd
  · unfold ProposalService.Accept
    cases hl : lookupProp s.proposals id with
    | none => exact ⟨hwf, hnd⟩
    | some q =>
      dsimp only
      by_cases hst : q.Status ≠ ProposalStatusPending
      · rw [if_pos hst]
        exact ⟨hwf, hnd⟩
      · rw [if_neg hst]
        constructor
        · exact wf_insertProp _ _ _ (hwf id q hl) hwf
        · exact nodup_keys_insertProp _ _ _ hnd
  · unfold ProposalService.Ignore
    cases hl : lookupProp s.proposals id with
    | none => exact ⟨hwf, hnd⟩
    | some q =>
      dsimp only
      by_cases hst : q.Status ≠ ProposalStatusPending
      · rw [if_pos hst]
        exact ⟨hwf, hnd⟩
      · rw [if_neg hst]
        constructor
        · exact wf_insertProp _ _ _ (hwf id q hl) hwf
        · exact nodup_keys_insertProp _ _ _ hnd
  · unfold ProposalService.Resubmit
    cases hl : lookupProp s.proposals id with
    | none => exact ⟨hwf, hnd⟩
    | some q =>
      dsimp only
      constructor
      · exact wf_insertProp _ _ _ (hwf id q hl) hwf
      · exact nodup_keys_insertProp _ _ _ hnd
  · intro k q hq
    simp only [ProposalService.Get] at hq ⊢
    rw [create_proposals, get_after_insert]
    by_cases hk : k = if p.ID = "" then fresh else p.ID
    · rw [if_pos hk]
      exact ⟨_, rfl, by simp [← hk, hwf k q hq]⟩
    · rw [if_neg hk]
      exact ⟨q, hq, rfl⟩
  · intro k q hq
    simp only [ProposalService.Get] at hq ⊢
    unfold ProposalService.Accept
    cases hl : lookupProp s.proposals id with
    | none => exact ⟨q, hq, rfl⟩
    | some p0 =>
      dsimp only
      by_cases hst : p0.Status ≠ ProposalStatusPending
      · rw [if_pos hst]
        exact ⟨q, hq, rfl⟩
      · rw [if_neg hst]
        rw [get_after_insert]
        by_cases hk : k = id
        · subst hk
          rw [hq] at hl
          cases hl
          exact ⟨_, if_pos rfl, rfl⟩
        · rw [if_neg hk]
          exact ⟨q, hq, rfl⟩
  · intro k q hq
    simp only [ProposalService.Get] at hq ⊢
    unfold ProposalService.Ignore
    cases hl : lookupProp s.proposals id with
    | none => exact ⟨q, hq, rfl⟩
    | some p0 =>
      dsimp only
      by_cases hst : p0.Status ≠ ProposalStatusPending
      · rw [if_pos hst]
        exact ⟨q, hq, rfl⟩
      · rw [if_neg hst]
        rw [get_after_insert]
        by_cases hk : k = id
        · subst hk
          rw [hq] at hl
          cases hl
          exact ⟨_, if_pos rfl, rfl⟩
        · rw [if_neg hk]
          exact ⟨q, hq, rfl⟩
  · intro k q hq
    simp only [ProposalService.Get] at hq ⊢
    unfold ProposalService.Resubmit
    cases hl : lookupProp s.proposals id with
    | none => exact ⟨q, hq, rfl⟩
    | some p0 =>
      dsimp only
      rw [get_after_insert]
      by_cases hk : k = id
      · subst hk
        rw [hq] at hl
        cases hl
        exact ⟨_, if_pos rfl, rfl⟩
      · rw [if_neg hk]
        exact ⟨q, hq, rfl⟩

/-- Witness for C8 on the concrete one-proposal store. -/
theorem proposal_id_unique_immutable_witness :
    ((sampleService.GetAll.map Proposal.ID).Nodup)
    ∧ (∃ r, (sampleService.Resubmit "p1" [] 3).2.Get "p1" = some r ∧
        r.ID = sampleProposal.ID) := by
  have hwfs : WFStore sampleService := by
    intro k p hp
    simp only [sampleService, lookupProp] at hp
    by_cases h : "p1" = k
    · rw [if_pos h] at hp
      cases hp
      exact h
    · rw [if_neg h] at hp
      cases hp
  have hnds : NodupKeys sampleService := by
    simp [NodupKeys, sampleService]
  have h := proposal_id_unique_immutable sampleService sampleProposal "p1" "f1" [] 3
    hwfs hnds
  exact ⟨h.2.1, h.2.2.2.2.2.2.2.2.2 "p1" sampleProposal (by decide)⟩

/-! Claim C4 -/

/-- Nanoseconds per unit suffix, matching the three branches of
parseSchedule. -/
def unitNanos (u : Char) : Int :=
  if u = 's' then Second else if u = 'm' then Minute else if u = 'h' then Hour else 0

theorem isDigit_not_isWhitespace (c : Char) (h : c.isDigit = true) :
    c.isWhitespace = false := by
  cases hws : c.isWhitespace with
  | false => rfl
  | true =>
    simp only [Char.isWhitespace, Bool.or_eq_true, decide_eq_true_eq] at hws
    rcases hws with ((rfl | rfl) | rfl) | rfl <;> exact absurd h (by decide)

theorem isDigit_ne_sign (c : Char) (h : c.isDigit = true) :
    c ≠ '-' ∧ c ≠ '+' := by
  constructor <;> rintro rfl <;> exact absurd h (by decide)

theorem takeWhile_all_digits :
    ∀ ds : List Char, (∀ c ∈ ds, c.isDigit = true) →
    ds.takeWhile Char.isDigit = ds
  | [], _ => rfl
  | c :: rest, h => by
    have hc : c.isDigit = true := h c (by simp)
    simp [List.takeWhile_cons, hc,
      takeWhile_all_digits rest (fun d hd => h d (by simp [hd]))]

theorem wrap64_small (z : Int) (h1 : -9223372036854775808 ≤ z)
    (h2 : z < 9223372036854775808) : wrap64 z = z := by
  unfold wrap64
  split <;> omega

theorem sscanfD_all_digits (ds : List Char) (hne : ds ≠ [])
    (hd : ∀ c ∈ ds, c.isDigit = true)
    (hle : (digitsVal ds : Int) ≤ 9223372036854775807) :
    sscanfD ds = some ((digitsVal ds : Int)) := by
  match ds, hne with
  | c :: rest, _ =>
    have hc : c.isDigit = true := hd c (by simp)
    have hws : c.isWhitespace = false := isDigit_not_isWhitespace c hc
    have hsign := isDigit_ne_sign c hc
    have hdrop : (c :: rest).dropWhile Char.isWhitespace = c :: rest := by
      simp [List.dropWhile_cons, hws]
    have hneg : (-9223372036854775808 : Int) ≤ (digitsVal (c :: rest) : Int) :=
      le_trans (by norm_num) (Int.natCast_nonneg _)
    unfold sscanfD
    rw [hdrop]
    dsimp only
    rw [if_neg hsign.1, if_neg hsign.2]
    unfold sscanfMag
    rw [takeWhile_all_digits (c :: rest) hd]
    simp [hneg, hle]

theorem parseSchedule_concat (ds : List Char) (u : Char) (hne : ds ≠ [])
    (hu : u = 's' ∨ u = 'm' ∨ u = 'h') :
    parseSchedule (ds ++ [u]) = wrap64 ((sscanfD ds).getD 0 * unitNanos u) := by
  have hnil : ds ++ [u] ≠ [] := by simp
  have hlen : (ds ++ [u]).length ≥ 2 := by
    have : 1 ≤ ds.length := List.length_pos.mpr hne
    simp [List.length_append]
    omega
  have hlast : (ds ++ [u]).getLast? = some u := by
    simp [List.getLast?_append]
  have hdrop : (ds ++ [u]).dropLast = ds := by
    simp
  unfold parseSchedule
  rw [if_neg hnil]
  rcases hu with rfl | rfl | rfl
  · rw [if_neg (by simp [hlast]), if_neg (by simp [hlast]),
      if_pos ⟨hlen, hlast⟩, hdrop]
    simp [unitNanos]
  · rw [if_pos ⟨hlen, hlast⟩, hdrop]
    simp [unitNanos]
  · rw [if_neg (by simp [hlast]), if_pos ⟨hlen, hlast⟩, hdrop]
    simp [unitNanos]

theorem effectiveInterval_concat_pos (ds : List Char) (u : Char) (hne : ds ≠ [])
    (hd : ∀ c ∈ ds, c.isDigit = true) (hu : u = 's' ∨ u = 'm' ∨ u = 'h')
    (hpos : 0 < digitsVal ds)
    (hfit : (digitsVal ds : Int) * unitNanos u ≤ 9223372036854775807) :
    effectiveInterval (ds ++ [u]) = (digitsVal ds : Int) * unitNanos u := by
  have hu1 : (1 : Int) ≤ unitNanos u := by
    rcases hu with rfl | rfl | rfl <;> decide
  have hvle : (digitsVal ds : Int) ≤ 9223372036854775807 :=
    le_trans (le_mul_of_one_le_right (Int.natCast_nonneg _) hu1) hfit
  have hscan := sscanfD_all_digits ds hne hd hvle
  have hprodpos : 0 < (digitsVal ds : Int) * unitNanos u :=
    mul_pos (by exact_mod_cast hpos) (lt_of_lt_of_le one_pos hu1)
  unfold effectiveInterval
  rw [parseSchedule_concat ds u hne hu, hscan]
  simp only [Option.getD_some]
  rw [wrap64_small _ (le_trans (by norm_num) (le_of_lt hprodpos)) (by omega)]
  rw [if_neg (not_le.mpr hprodpos)]

theorem effectiveInterval_default (s : List Char)
    (h : s.length < 2 ∨
      (s.getLast? ≠ some 's' ∧ s.getLast? ≠ some 'm' ∧ s.getLast? ≠ some 'h')) :
    effectiveInterval s = 30 * Minute := by
  unfold effectiveInterval parseSchedule
  by_cases hnil : s = []
  · rw [if_pos hnil]
    norm_num [Minute, Second]
  · rw [if_neg hnil]
    have h1 : ¬(s.length ≥ 2 ∧ s.getLast? = some 'm') := by
      rcases h with h | h
      · intro hc
        omega
      · intro hc
        exact h.2.1 hc.2
    have h2 : ¬(s.length ≥ 2 ∧ s.getLast? = some 'h') := by
      rcases h with h | h
      · intro hc
        omega
      · intro hc
        exact h.2.2 hc.2
    have h3 : ¬(s.length ≥ 2 ∧ s.getLast? = some 's') := by
      rcases h with h | h
      · intro hc
        omega
      · intro hc
        exact h.1 hc.2
    rw [if_neg h1, if_neg h2, if_neg h3]
    norm_num [Minute, Second]

theorem effectiveInterval_concat_nonpos (ds : List Char) (u : Char) (hne : ds ≠ [])
    (hu : u = 's' ∨ u = 'm' ∨ u = 'h')
    (hcase : sscanfD ds = none ∨
      ∃ v, sscanfD ds = some v ∧ v ≤ 0 ∧
        -9223372036854775808 ≤ v * unitNanos u) :
    effectiveInterval (ds ++ [u]) = 30 * Minute := by
  have hu1 : (1 : Int) ≤ unitNanos u := by
    rcases hu with rfl | rfl | rfl <;> decide
  unfold effectiveInterval
  rw [parseSchedule_concat ds u hne hu]
  rcases hcase with h | ⟨v, hv, hv0, hfit⟩
  · rw [h]
    simp only [Option.getD_none, zero_mul]
    norm_num [wrap64]
  · rw [hv]
    simp only [Option.getD_some]
    have hnp : v * unitNanos u ≤ 0 :=
      mul_nonpos_of_nonpos_of_nonneg hv0 (le_trans (by norm_num) hu1)
    rw [wrap64_small _ hfit (by omega)]
    rw [if_pos hnp]

/-- Claim C4 (amended): the parseSchedule prefix is read by a scanf-style
%d scan (optional sign, maximal digit run, trailing characters ignored).
For a digit string d followed by a unit suffix s, m or h, when the value
n of d is positive and n scaled by the unit fits in the int64 nanosecond
range, the loop uses exactly n units; when the string is shorter than two
characters or does not end in a unit suffix, or when the scan fails or
yields a zero or negative value (whose scaled value still fits int64),
the loop uses the 30-minute default. -/
theorem schedule_parse_spec :
    (∀ (ds : List Char) (u : Char), ds ≠ [] → (∀ c ∈ ds, c.isDigit = true) →
      (u = 's' ∨ u = 'm' ∨ u = 'h') → 0 < digitsVal ds →
      (digitsVal ds : Int) * unitNanos u ≤ 9223372036854775807 →
      effectiveInterval (ds ++ [u]) = (digitsVal ds : Int) * unitNanos u)
    ∧ (∀ s : List Char,
      s.length < 2 ∨
        (s.getLast? ≠ some 's' ∧ s.getLast? ≠ some 'm' ∧ s.getLast? ≠ some 'h') →
      effectiveInterval s = 30 * Minute)
    ∧ (∀ (ds : List Char) (u : Char), ds ≠ [] → (u = 's' ∨ u = 'm' ∨ u = 'h') →
      (sscanfD ds = none ∨
        ∃ v, sscanfD ds = some v ∧ v ≤ 0 ∧
          -9223372036854775808 ≤ v * unitNanos u) →
      effectiveInterval (ds ++ [u]) = 30 * Minute) :=
  ⟨effectiveInterval_concat_pos, effectiveInterval_default,
    effectiveInterval_concat_nonpos⟩

/-- Witness for C4: the spec scenarios 45m, 2h, empty and abc. -/
theorem schedule_parse_spec_witness :
    effectiveInterval ("45m".toList) = 45 * Minute
    ∧ effectiveInterval ("2h".toList) = 2 * Hour
    ∧ effectiveInterval ("".toList) = 30 * Minute
    ∧ effectiveInterval ("abc".toList) = 30 * Minute := by
  have h45 := schedule_parse_spec.1 ['4', '5'] 'm' (by decide) (by decide)
    (by decide) (by decide) (by decide)
  have h2h := schedule_parse_spec.1 ['2'] 'h' (by decide) (by decide)
    (by decide) (by decide) (by decide)
  have hemp := schedule_parse_spec.2.1 ("".toList) (by decide)
  have habc := schedule_parse_spec.2.1 ("abc".toList) (by decide)
  refine ⟨?_, ?_, hemp, habc⟩
  · have : ("45m".toList) = ['4', '5'] ++ ['m'] := by decide
    rw [this, h45]
    decide
  · have : ("2h".toList) = ['2'] ++ ['h'] := by decide
    rw [this, h2h]
    decide

/-- Counterexample to C4 as stated: the expression 5.5h is not of the
form integer-plus-unit, so the claim prescribes the 30-minute default,
but the code scans the leading 5 of the prefix 5.5 and runs the loop at
5 hours. -/
theorem schedule_parse_counterexample :
    effectiveInterval ("5.5h".toList) = 5 * Hour ∧
    (5 : Int) * Hour ≠ 30 * Minute := by
  constructor
  · decide
  · decide

/-! Claim C7 -/

theorem closeAll_ok_of_all_open :
    ∀ l : List (String × Bool), (∀ a ∈ l, a.2 = false) →
    ∃ l2, closeAll l = .ok l2 ∧ l2.map Prod.fst = l.map Prod.fst ∧
      ∀ a ∈ l2, a.2 = true
  | [], _ => ⟨[], rfl, rfl, by simp⟩
  | (n, closed) :: rest, h => by
    have hc : closed = false := h (n, closed) (by simp)
    obtain ⟨l2, hok, hkeys, hall⟩ :=
      closeAll_ok_of_all_open rest (fun a ha => h a (by simp [ha]))
    subst hc
    refine ⟨(n, true) :: l2, ?_, by simp [hkeys], ?_⟩
    · simp [closeAll, hok]
    · intro a ha
      rcases List.mem_cons.mp ha with rfl | hmem
      · rfl
      · exact hall a hmem

theorem closeAll_ok_all_closed :
    ∀ l l2 : List (String × Bool), closeAll l = .ok l2 →
    (l2.map Prod.fst = l.map Prod.fst) ∧ (∀ a ∈ l2, a.2 = true)
  | [], l2, h => by
    cases h
    exact ⟨rfl, by simp⟩
  | (n, closed) :: rest, l2, h => by
    cases closed with
    | true => cases h
    | false =>
      simp only [closeAll] at h
      cases hrest : closeAll rest with
      | error e =>
        rw [hrest] at h
        cases h
      | ok rest2 =>
        rw [hrest] at h
        cases h
        obtain ⟨hkeys, hall⟩ := closeAll_ok_all_closed rest rest2 hrest
        refine ⟨by simp [hkeys], ?_⟩
        intro a ha
        rcases List.mem_cons.mp ha with rfl | hmem
        · rfl
        · exact hall a hmem

theorem closeAll_error_of_closed :
    ∀ l : List (String × Bool), (∃ a ∈ l, a.2 = true) →
    closeAll l = .error "close of closed channel"
  | [], h => by
    obtain ⟨a, ha, _⟩ := h
    cases ha
  | (n, closed) :: rest, h => by
    cases closed with
    | true => rfl
    | false =>
      obtain ⟨a, ha, hc⟩ := h
      rcases List.mem_cons.mp ha with rfl | hmem
      · cases hc
      · have hr := closeAll_error_of_closed rest ⟨a, hmem, hc⟩
        simp [closeAll, hr]

/-- Claim C7 (amended): Stop cancels the context and closes every stop
channel; after a successful Stop no loop is running (each loop exits once
its stop channel is closed or the context is cancelled, so the wait-group
join returns), and Stop on a never-started scheduler (empty activities
map) succeeds as a no-op; but Stop is not idempotent after a Start that
registered an activity: a second Stop closes the already-closed stop
channels, which panics in Go (modelled as the error result). -/
theorem stop_joins_all_loops :
    (neverStarted.Stop = .ok { activities := [], cancelled := true })
    ∧ (∀ (st : SchedService) (a : String × Bool), st.cancelled = true →
        ¬ loopRunning st a)
    ∧ (∀ cfg : List (String × Bool), ∃ s2,
        (SchedService.start cfg).Stop = .ok s2 ∧ s2.cancelled = true ∧
        s2.activities.map Prod.fst = (SchedService.start cfg).activities.map Prod.fst ∧
        ∀ a ∈ s2.activities, ¬ loopRunning s2 a)
    ∧ (∀ s s2 : SchedService, s.activities ≠ [] → s.Stop = .ok s2 →
        s2.Stop = .error "close of closed channel") := by
  refine ⟨rfl, ?_, ?_, ?_⟩
  · intro st a hc hrun
    rw [hrun.2] at hc
    cases hc
  · intro cfg
    have hopen : ∀ a ∈ (SchedService.start cfg).activities, a.2 = false := by
      intro a ha
      simp only [SchedService.start, List.mem_map] at ha
      obtain ⟨b, _, hb⟩ := ha
      rw [← hb]
    obtain ⟨l2, hok, hkeys, hall⟩ :=
      closeAll_ok_of_all_open (SchedService.start cfg).activities hopen
    refine ⟨{ activities := l2, cancelled := true }, ?_, rfl, hkeys, ?_⟩
    · simp only [SchedService.Stop, hok]
    · intro a _ hrun
      cases hrun.2
  · intro s s2 hne hstop
    simp only [SchedService.Stop] at hstop
    cases hca : closeAll s.activities with
    | error e =>
      rw [hca] at hstop
      cases hstop
    | ok acts =>
      rw [hca] at hstop
      cases hstop
      obtain ⟨hkeys, hall⟩ := closeAll_ok_all_closed s.activities acts hca
      have hne2 : acts ≠ [] := by
        intro he
        rw [he] at hkeys
        cases hacts : s.activities with
        | nil => exact hne hacts
        | cons a rest =>
          rw [hacts] at hkeys
          cases hkeys
      simp only [SchedService.Stop]
      cases hacts : acts with
      | nil => exact absurd hacts hne2
      | cons a rest =>
        rw [closeAll_error_of_closed (a :: rest)
          ⟨a, by simp, hall a (by simp [hacts])⟩]

/-- Witness for C7: stopping a one-activity scheduler succeeds and
leaves no loop running. -/
theorem stop_joins_all_loops_witness :
    ∃ s2, (SchedService.start [("risk_analysis", true)]).Stop = .ok s2 ∧
      s2.cancelled = true ∧ ∀ a ∈ s2.activities, ¬ loopRunning s2 a := by
  obtain ⟨s2, hok, hc, _, hall⟩ :=
    stop_joins_all_loops.2.2.1 [("risk_analysis", true)]
  exact ⟨s2, hok, hc, hall⟩

/-- Counterexample to C7 as stated: stopping an already-stopped scheduler
that had one activity is not a no-op — the second Stop panics with close
of closed channel. -/
theorem stop_not_idempotent_counterexample :
    ∃ s2, (SchedService.start [("risk_analysis", true)]).Stop = .ok s2 ∧
      s2.Stop = .error "close of closed channel" := by
  refine ⟨{ activities := [("risk_analysis", true)], cancelled := true }, rfl, rfl⟩

/-! Claim C5 -/

/-- Claim C5 (amended): replaceParams processes the parameters in the
iteration order of the Go map, for each one replacing the non-overlapping
occurrences of its three placeholder spellings in the fixed order
double-brace-dot, double-brace, dollar, with its value; a template in
which no spelling of any mapped parameter occurs is returned unchanged
(so a placeholder survives as literal text whenever no mapped spelling
occurs inside it); substitution is not confluent: because the dollar
spelling is not delimiter-terminated, the result can depend on the
iteration order even when all values are free of placeholder-shaped
text, and a mapped name that is a prefix of another placeholder name can
rewrite part of that placeholder. -/
theorem template_substitution_unchanged (t : List Char)
    (params : List (List Char × List Char))
    (h : ∀ kv ∈ params, occurs (pat1 kv.1) t = false ∧
      occurs (pat2 kv.1) t = false ∧ occurs (pat3 kv.1) t = false) :
    replaceParams t params = t := by
  induction params with
  | nil => rfl
  | cons kv rest ih =>
    have h0 := h kv (by simp)
    have hstep : replaceParams t (kv :: rest) = replaceParams (applyParam t kv) rest := rfl
    rw [hstep, applyParam_of_not_occurs t kv h0.1 h0.2.1 h0.2.2]
    exact ih (fun kv2 h2 => h kv2 (by simp [h2]))

/-- Witness for C5: a template mentioning none of the mapped spellings is
returned unchanged. -/
theorem template_substitution_unchanged_witness :
    replaceParams ("SELECT req FROM access".toList)
      [("host".toList, "a.example".toList)] = "SELECT req FROM access".toList :=
  template_substitution_unchanged _ _ (by decide)

/-- Counterexample to C5 as stated: on template $app_id with parameters
app and app_id (values X and Y, free of placeholder-shaped text), the two
iteration orders give different results, the order processing app first
leaves the occurrence of $app_id substituted as X_id instead of Y, and
the unknown placeholder $other is corrupted by the mapped parameter o. -/
theorem template_substitution_counterexample :
    replaceParams ['$', 'a', 'p', 'p', '_', 'i', 'd']
        [(['a', 'p', 'p'], ['X']), (['a', 'p', 'p', '_', 'i', 'd'], ['Y'])] ≠
      replaceParams ['$', 'a', 'p', 'p', '_', 'i', 'd']
        [(['a', 'p', 'p', '_', 'i', 'd'], ['Y']), (['a', 'p', 'p'], ['X'])]
    ∧ placeholderFree ['X'] ∧ placeholderFree ['Y']
    ∧ replaceParams ['$', 'a', 'p', 'p', '_', 'i', 'd']
        [(['a', 'p', 'p'], ['X']), (['a', 'p', 'p', '_', 'i', 'd'], ['Y'])] =
      ['X', '_', 'i', 'd']
    ∧ replaceParams ['$', 'a', 'p', 'p', '_', 'i', 'd']
        [(['a', 'p', 'p', '_', 'i', 'd'], ['Y']), (['a', 'p', 'p'], ['X'])] = ['Y']
    ∧ replaceParams ['$', 'o', 't', 'h', 'e', 'r'] [(['o'], ['X'])] =
      ['X', 't', 'h', 'e', 'r'] := by
  have e1 : replaceParams ['$', 'a', 'p', 'p', '_', 'i', 'd']
      [(['a', 'p', 'p'], ['X']), (['a', 'p', 'p', '_', 'i', 'd'], ['Y'])] =
      ['X', '_', 'i', 'd'] := by
    simp [replaceParams, applyParam, replaceAll, replaceAllAux, pat1, pat2, pat3]
  have e2 : replaceParams ['$', 'a', 'p', 'p', '_', 'i', 'd']
      [(['a', 'p', 'p', '_', 'i', 'd'], ['Y']), (['a', 'p', 'p'], ['X'])] = ['Y'] := by
    simp [replaceParams, applyParam, replaceAll, replaceAllAux, pat1, pat2, pat3]
  have e3 : replaceParams ['$', 'o', 't', 'h', 'e', 'r'] [(['o'], ['X'])] =
      ['X', 't', 'h', 'e', 'r'] := by
    simp [replaceParams, applyParam, replaceAll, replaceAllAux, pat1, pat2, pat3]
  refine ⟨?_, by decide, by decide, e1, e2, e3⟩
  rw [e1, e2]
  decide

end Soclaw
